import Mathlib

/-!
Verification of `simulador_consumo_pc.py`, an interactive console tool that
collects per-device power parameters, computes monthly energy consumption and
cost, accumulates device records in a session list, and reports them.

Modelling conventions:
* Python numbers are embedded exactly: validated integers as `Int`, Python
  floats (true division results and the price constant) as `ℚ`.
* Console input is a script `List String` of the lines the user would type;
  a reader consumes a prefix of the script and returns the accepted value,
  the messages it printed for rejected lines, and the remaining script.
  `none` models the real loop blocking forever because the script ran out.
* Python `int(...)` parsing is abstracted as a parameter
  `parse : String → Option Int`; the theorems hold for every parse function.
* The session loop (`__main__`) is driven by a script of already-validated
  per-iteration inputs (name, power, hours, days, continue-answer), since the
  validated readers are specified separately.  The `try/except` around the
  computation is modelled by letting the computation return `Except`.
-/

/-- Constant `PRECO_KWH = 0.80` (price of a kWh in R$). -/
def PRECO_KWH : ℚ := 4 / 5

/-- Messages printed by `get_int_input` for a rejected line:
`invalidFormat` models "Entrada inválida. Por favor, digite apenas números
inteiros." and `foraDoIntervalo lo hi` models "Ops! O valor precisa estar
entre {lo} e {hi}. Tente novamente." (it carries the exact bounds). -/
inductive Msg where
  | invalidFormat : Msg
  | foraDoIntervalo : Int → Int → Msg
deriving DecidableEq, Repr

/-- Embedding of `get_int_input(prompt, min_val, max_val)`: reads lines from
the script until one parses as an integer inside `[min_val, max_val]`.
Returns the accepted value, the messages for the rejected lines (in order),
and the unconsumed remainder of the script. -/
def get_int_input (parse : String → Option Int) (min_val max_val : Int) :
    List String → Option (Int × List Msg × List String)
  | [] => none
  | line :: rest =>
    match parse line with
    | some value =>
      if min_val ≤ value ∧ value ≤ max_val then
        some (value, [], rest)
      else
        (get_int_input parse min_val max_val rest).map
          (fun r => (r.1, Msg.foraDoIntervalo min_val max_val :: r.2.1, r.2.2))
    | none =>
      (get_int_input parse min_val max_val rest).map
        (fun r => (r.1, Msg.invalidFormat :: r.2.1, r.2.2))

/-- Embedding of `get_validated_string_input(prompt, validator_func,
error_message)`: reads lines until one satisfies `validator_func`, returning
the accepted line verbatim, the `error_message` printed once per rejected
line, and the unconsumed remainder. -/
def get_validated_string_input (validator_func : String → Bool)
    (error_message : String) :
    List String → Option (String × List String × List String)
  | [] => none
  | value :: rest =>
    if validator_func value then
      some (value, [], rest)
    else
      (get_validated_string_input validator_func error_message rest).map
        (fun r => (r.1, error_message :: r.2.1, r.2.2))

/-- Embedding of `valida_nome_computador(nome)`: `3 <= len(nome) <= 20`. -/
def valida_nome_computador (nome : String) : Bool :=
  decide (3 ≤ nome.length) && decide (nome.length ≤ 20)

/-- Embedding of `calcular_consumo_mensal(potencia, horas_por_dia,
dias_por_mes, preco_kwh)`: returns `(consumo_mensal_kwh, custo_mensal)`. -/
def calcular_consumo_mensal (potencia horas_por_dia dias_por_mes preco_kwh : ℚ) :
    ℚ × ℚ :=
  let consumo_mensal_kwh := (potencia * horas_por_dia * dias_por_mes) / 1000
  let custo_mensal := consumo_mensal_kwh * preco_kwh
  (consumo_mensal_kwh, custo_mensal)

/-- One record of the `computadores_registrados` list: the dictionary
`info_computador` built in the session loop. -/
structure Computador where
  nome : String
  potencia : Int
  horas_por_dia : Int
  dias_por_mes : Int
  consumo_kwh : ℚ
  custo : ℚ
deriving DecidableEq, Repr

/-- The validated inputs one loop iteration collects before the `try` block,
plus the validated answer to "Deseja adicionar outro computador? (s/n)"
(`continuar = true` models `'s'`). -/
structure IterInput where
  nome : String
  potencia : Int
  horas_por_dia : Int
  dias_por_mes : Int
  continuar : Bool
deriving DecidableEq, Repr

/-- Embedding of the `while True` session loop of `__main__`, parametrised by
the computation inside the `try` block (`Except.error` models an exception,
which hits the `except` branch: print and `break`).  On `Except.ok` the
record is appended and the loop continues or stops according to the
continue-answer.  An exhausted script ends the session with the current
registry (the real loop would block on `input`). -/
def session_loop (compute : Int → Int → Int → ℚ → Except String (ℚ × ℚ)) :
    List IterInput → List Computador → List Computador
  | [], acc => acc
  | inp :: rest, acc =>
    match compute inp.potencia inp.horas_por_dia inp.dias_por_mes PRECO_KWH with
    | Except.error _ => acc
    | Except.ok res =>
      let registro : Computador :=
        { nome := inp.nome
          potencia := inp.potencia
          horas_por_dia := inp.horas_por_dia
          dias_por_mes := inp.dias_por_mes
          consumo_kwh := res.1
          custo := res.2 }
      if inp.continuar then session_loop compute rest (acc ++ [registro])
      else acc ++ [registro]

/-- The computation the source actually performs inside the `try` block:
`calcular_consumo_mensal` never raises on validated inputs, so it always
returns `Except.ok`. -/
def calcular_ok (potencia horas_por_dia dias_por_mes : Int) (preco_kwh : ℚ) :
    Except String (ℚ × ℚ) :=
  Except.ok (calcular_consumo_mensal (potencia : ℚ) (horas_por_dia : ℚ)
    (dias_por_mes : ℚ) preco_kwh)

/-- One displayed block/row of the reporters: name, power, consumption, cost
(formatting is display-only and not modelled). -/
structure LinhaIndividual where
  nome : String
  potencia : Int
  consumo_kwh : ℚ
  custo : ℚ
deriving DecidableEq, Repr

/-- Embedding of `exibir_resultados_individuais`: one block per record in
insertion order (the empty case prints a notice and shows no block). -/
def exibir_resultados_individuais (computadores : List Computador) :
    List LinhaIndividual :=
  computadores.map (fun c => ⟨c.nome, c.potencia, c.consumo_kwh, c.custo⟩)

/-- Embedding of Python `min(lista, key=key)` on a non-empty list
`x :: xs`: a left scan that replaces the current best only on a strict
decrease, hence keeps the first minimal element. -/
def min_por {α : Type} (key : α → ℚ) : α → List α → α
  | x, [] => x
  | x, y :: ys => min_por key (if key y < key x then y else x) ys

/-- Embedding of Python `max(lista, key=key)`: replaces the current best only
on a strict increase (`key y > key x`, i.e. `-key y < -key x`), hence keeps
the first maximal element. -/
def max_por {α : Type} (key : α → ℚ) (x : α) (xs : List α) : α :=
  min_por (fun a => -(key a)) x xs

/-- The observable output of `exibir_comparacao_tabela`: the table rows in
insertion order, and — only when more than one record exists — the pair
(mais econômico, menos econômico) printed below the table. -/
structure TabelaComparacao where
  linhas : List LinhaIndividual
  comparacao : Option (Computador × Computador)
deriving DecidableEq, Repr

/-- Embedding of `exibir_comparacao_tabela`: prints one row per record, and
when `len(computadores) > 1` computes `min`/`max` by `custo`. -/
def exibir_comparacao_tabela (computadores : List Computador) :
    TabelaComparacao :=
  { linhas := computadores.map (fun c => ⟨c.nome, c.potencia, c.consumo_kwh, c.custo⟩)
    comparacao :=
      match computadores with
      | [] => none
      | x :: xs =>
        if 1 < (x :: xs).length then
          some (min_por (fun c => c.custo) x xs, max_por (fun c => c.custo) x xs)
        else none }

/-- Embedding of `gerar_grafico_comparacao`: the data handed to the plotting
collaborator — device names and monthly costs in insertion order. -/
def gerar_grafico_comparacao (computadores : List Computador) :
    List String × List ℚ :=
  (computadores.map (fun c => c.nome), computadores.map (fun c => c.custo))

/-- Embedding of the reporting stage at the end of `__main__`: if the
registry is non-empty the three reporters are invoked on it in sequence;
otherwise only a closing notice is printed (`none`). -/
def etapa_relatorios (regs : List Computador) :
    Option (List LinhaIndividual × TabelaComparacao × (List String × List ℚ)) :=
  match regs with
  | [] => none
  | _ =>
    some (exibir_resultados_individuais regs, exibir_comparacao_tabela regs,
      gerar_grafico_comparacao regs)

/-- A script line is accepted by `get_int_input` when it parses to an integer
inside the bounds. -/
def aceita_int (parse : String → Option Int) (min_val max_val : Int)
    (line : String) : Prop :=
  ∃ v, parse line = some v ∧ min_val ≤ v ∧ v ≤ max_val

/-- The message `get_int_input` prints for a rejected line: parse failure
gives the invalid-format message, a parsed value out of range gives the
range message carrying the exact bounds. -/
def msg_rejeicao (parse : String → Option Int) (min_val max_val : Int)
    (line : String) : Msg :=
  match parse line with
  | none => Msg.invalidFormat
  | some _ => Msg.foraDoIntervalo min_val max_val

/-- Record invariant: the derived fields agree with the input fields and the
fixed price constant. -/
def registro_valido (c : Computador) : Prop :=
  c.consumo_kwh = (c.potencia : ℚ) * (c.horas_por_dia : ℚ) * (c.dias_por_mes : ℚ) / 1000
    ∧ c.custo = c.consumo_kwh * PRECO_KWH

/-- Spec-side characterisation: `m` is the first record of `l` in insertion
order whose `custo` is minimal. -/
def primeiro_minimo (l : List Computador) (m : Computador) : Prop :=
  ∃ l₁ l₂, l = l₁ ++ m :: l₂ ∧ (∀ c ∈ l, m.custo ≤ c.custo)
    ∧ ∀ c ∈ l₁, m.custo < c.custo

/-- Spec-side characterisation: `M` is the first record of `l` in insertion
order whose `custo` is maximal. -/
def primeiro_maximo (l : List Computador) (M : Computador) : Prop :=
  ∃ l₁ l₂, l = l₁ ++ M :: l₂ ∧ (∀ c ∈ l, c.custo ≤ M.custo)
    ∧ ∀ c ∈ l₁, c.custo < M.custo

/-- C1: for every powerWatts `p`, hoursPerDay `h`, daysPerMonth `d` and price
`q`, `calcular_consumo_mensal(p, h, d, q)` returns the pair `(kwh, cost)` with
`kwh = p*h*d/1000` and `cost = kwh*q`; in particular
`calcular_consumo_mensal(300, 8, 30, 0.80)` returns `kwh = 72.0` and
`cost = 57.6` (= 288/5). -/
theorem claim_C1 (p h d q : ℚ) :
    calcular_consumo_mensal p h d q = (p * h * d / 1000, p * h * d / 1000 * q)
      ∧ calcular_consumo_mensal 300 8 30 (4 / 5) = (72, 288 / 5) := by
  refine ⟨rfl, ?_⟩
  simp only [calcular_consumo_mensal]
  norm_num

/-- C6: `valida_nome_computador(n)` returns true iff `3 <= length(n) <= 20`. -/
theorem claim_C6 (n : String) :
    valida_nome_computador n = true ↔ 3 ≤ n.length ∧ n.length ≤ 20 := by
  simp [valida_nome_computador]

/-- C7: zero power annihilates both outputs: for hours, days and price in
their valid ranges, `calcular_consumo_mensal(0, h, d, p)` returns `(0, 0)`. -/
theorem claim_C7 (h d p : ℚ) (hh1 : 1 ≤ h) (hh2 : h ≤ 24)
    (hd1 : 1 ≤ d) (hd2 : d ≤ 30) (hp : 0 ≤ p) :
    calcular_consumo_mensal 0 h d p = (0, 0) := by
  simp [calcular_consumo_mensal]

/-- Witness for C7 at `h = 8`, `d = 30`, `p = 4/5`. -/
theorem claim_C7_witness : calcular_consumo_mensal 0 8 30 (4 / 5) = (0, 0) :=
  claim_C7 8 30 (4 / 5) (by norm_num) (by norm_num) (by norm_num) (by norm_num)
    (by norm_num)

lemma get_int_input_isSome_iff (parse : String → Option Int)
    (min_val max_val : Int) (entradas : List String) :
    (get_int_input parse min_val max_val entradas).isSome = true ↔
      ∃ l ∈ entradas, aceita_int parse min_val max_val l := by
  induction entradas with
  | nil => simp [get_int_input]
  | cons l tail ih =>
    cases hparse : parse l with
    | none =>
      have hna : ¬ aceita_int parse min_val max_val l := by
        rintro ⟨w, hw, _, _⟩
        rw [hparse] at hw
        exact Option.noConfusion hw
      simp [get_int_input, hparse, ih, hna]
    | some w =>
      by_cases hc : min_val ≤ w ∧ w ≤ max_val
      · have ha : aceita_int parse min_val max_val l := ⟨w, hparse, hc.1, hc.2⟩
        simp [get_int_input, hparse, hc, ha]
      · have hna : ¬ aceita_int parse min_val max_val l := by
          rintro ⟨u, hu, h1, h2⟩
          rw [hparse] at hu
          injection hu with hu
          subst hu
          exact hc ⟨h1, h2⟩
        simp [get_int_input, hparse, hc, ih, hna]

lemma get_int_input_consome (parse : String → Option Int) (min_val max_val : Int) :
    ∀ (entradas : List String) (v : Int) (msgs : List Msg) (rest : List String),
      get_int_input parse min_val max_val entradas = some (v, msgs, rest) →
        ∃ pre line, entradas = pre ++ line :: rest
          ∧ (∀ l ∈ pre, ¬ aceita_int parse min_val max_val l)
          ∧ parse line = some v ∧ min_val ≤ v ∧ v ≤ max_val
          ∧ msgs = pre.map (msg_rejeicao parse min_val max_val) := by
  intro entradas
  induction entradas with
  | nil =>
    intro v msgs rest h
    simp [get_int_input] at h
  | cons l tail ih =>
    intro v msgs rest h
    cases hparse : parse l with
    | none =>
      rw [get_int_input, hparse] at h
      rw [Option.map_eq_some'] at h
      obtain ⟨⟨v0, msgs0, rest0⟩, hrec, heq⟩ := h
      simp only [Prod.mk.injEq] at heq
      obtain ⟨hv0, hm0, hr0⟩ := heq
      subst hv0; subst hm0; subst hr0
      obtain ⟨pre, line, htail, hpre, hline, h1, h2, hmsgs⟩ := ih v0 msgs0 rest0 hrec
      refine ⟨l :: pre, line, by simp [htail], ?_, hline, h1, h2, ?_⟩
      · intro s hs
        rcases List.mem_cons.mp hs with hsl | hsp
        · subst hsl
          rintro ⟨w, hw, _, _⟩
          rw [hparse] at hw
          exact Option.noConfusion hw
        · exact hpre s hsp
      · simp [msg_rejeicao, hparse, hmsgs]
    | some w =>
      by_cases hc : min_val ≤ w ∧ w ≤ max_val
      · simp only [get_int_input, hparse] at h
        rw [if_pos hc] at h
        injection h with h
        simp only [Prod.mk.injEq] at h
        obtain ⟨hv, hm, hr⟩ := h
        subst hv; subst hm; subst hr
        exact ⟨[], l, rfl, by simp, hparse, hc.1, hc.2, rfl⟩
      · simp only [get_int_input, hparse] at h
        rw [if_neg hc] at h
        rw [Option.map_eq_some'] at h
        obtain ⟨⟨v0, msgs0, rest0⟩, hrec, heq⟩ := h
        simp only [Prod.mk.injEq] at heq
        obtain ⟨hv0, hm0, hr0⟩ := heq
        subst hv0; subst hm0; subst hr0
        obtain ⟨pre, line, htail, hpre, hline, h1, h2, hmsgs⟩ := ih v0 msgs0 rest0 hrec
        refine ⟨l :: pre, line, by simp [htail], ?_, hline, h1, h2, ?_⟩
        · intro s hs
          rcases List.mem_cons.mp hs with hsl | hsp
          · subst hsl
            rintro ⟨u, hu, hu1, hu2⟩
            rw [hparse] at hu
            injection hu with hu
            subst hu
            exact hc ⟨hu1, hu2⟩
          · exact hpre s hsp
        · simp [msg_rejeicao, hparse, hmsgs]

lemma get_validated_string_input_isSome_iff (validator_func : String → Bool)
    (error_message : String) (entradas : List String) :
    (get_validated_string_input validator_func error_message entradas).isSome = true ↔
      ∃ l ∈ entradas, validator_func l = true := by
  induction entradas with
  | nil => simp [get_validated_string_input]
  | cons l tail ih =>
    by_cases hv : validator_func l
    · simp [get_validated_string_input, hv]
    · simp [get_validated_string_input, hv, ih]

lemma get_validated_string_input_consome (validator_func : String → Bool)
    (error_message : String) :
    ∀ (entradas : List String) (s : String) (msgs rest : List String),
      get_validated_string_input validator_func error_message entradas =
          some (s, msgs, rest) →
        ∃ pre, entradas = pre ++ s :: rest
          ∧ (∀ l ∈ pre, validator_func l = false)
          ∧ validator_func s = true
          ∧ msgs = pre.map (fun _ => error_message) := by
  intro entradas
  induction entradas with
  | nil =>
    intro s msgs rest h
    simp [get_validated_string_input] at h
  | cons l tail ih =>
    intro s msgs rest h
    by_cases hv : validator_func l
    · rw [get_validated_string_input, if_pos hv] at h
      injection h with h
      simp only [Prod.mk.injEq] at h
      obtain ⟨hs, hm, hr⟩ := h
      subst hs; subst hm; subst hr
      exact ⟨[], rfl, by simp, hv, rfl⟩
    · rw [get_validated_string_input, if_neg hv] at h
      rw [Option.map_eq_some'] at h
      obtain ⟨⟨s0, msgs0, rest0⟩, hrec, heq⟩ := h
      simp only [Prod.mk.injEq] at heq
      obtain ⟨hs0, hm0, hr0⟩ := heq
      subst hs0; subst hm0; subst hr0
      obtain ⟨pre, htail, hpre, hacc, hmsgs⟩ := ih s0 msgs0 rest0 hrec
      refine ⟨l :: pre, by simp [htail], ?_, hacc, by simp [hmsgs]⟩
      intro t ht
      rcases List.mem_cons.mp ht with htl | htp
      · subst htl
        exact Bool.eq_false_iff.mpr hv
      · exact hpre t htp

/-- C2: for bounds `min_val ≤ max_val` and any input script splitting as
rejected lines `pre` followed by a `line` parsing to `v` with
`min_val ≤ v ≤ max_val`, `get_int_input` returns that first valid value;
each earlier line produced its message (invalid-format on parse failure,
the range message with the exact bounds on an out-of-range parse), and the
rejected prefix `pre` may be arbitrarily long (unbounded retries). -/
theorem claim_C2 (parse : String → Option Int) (min_val max_val : Int)
    (hb : min_val ≤ max_val) (pre : List String) (line : String)
    (post : List String) (v : Int)
    (hpre : ∀ l ∈ pre, ¬ aceita_int parse min_val max_val l)
    (hv : parse line = some v) (h1 : min_val ≤ v) (h2 : v ≤ max_val) :
    get_int_input parse min_val max_val (pre ++ line :: post) =
      some (v, pre.map (msg_rejeicao parse min_val max_val), post) := by
  induction pre with
  | nil =>
    simp only [List.nil_append, List.map_nil, get_int_input, hv]
    rw [if_pos ⟨h1, h2⟩]
  | cons l pre ih =>
    have hl := hpre l (List.mem_cons_self l pre)
    have ih2 := ih fun s hs => hpre s (List.mem_cons_of_mem l hs)
    cases hparse : parse l with
    | none =>
      simp only [List.cons_append, List.map_cons, get_int_input, hparse,
        List.append_eq, ih2, Option.map_some', msg_rejeicao]
    | some w =>
      have hcond : ¬ (min_val ≤ w ∧ w ≤ max_val) := fun hc =>
        hl ⟨w, hparse, hc.1, hc.2⟩
      simp only [List.cons_append, List.map_cons, get_int_input, hparse]
      rw [if_neg hcond]
      simp only [List.append_eq, ih2, Option.map_some', msg_rejeicao, hparse]

/-- Witness for C2: bounds `[3, 10]`, a parse that maps a line to its length;
the line "a" parses to 1, outside the bounds, so it is rejected with the
range message, and "abc" parses to 3 and is accepted. -/
theorem claim_C2_witness :
    get_int_input (fun l => some (l.length : Int)) 3 10 ["a", "abc"] =
      some (3, [Msg.foraDoIntervalo 3 10], []) := by
  have h := claim_C2 (fun l => some (l.length : Int)) 3 10 (by norm_num)
    ["a"] "abc" [] 3
    (by
      intro l hl
      rw [List.mem_singleton] at hl
      subst hl
      rintro ⟨w, hw, h3, h10⟩
      simp only [Option.some.injEq] at hw
      have : ("a".length : Int) = 1 := by decide
      omega)
    (by decide) (by norm_num) (by norm_num)
  exact h

/-- C9: each validated reader terminates iff its script contains an
acceptable entry, and on termination it has consumed exactly the prefix up
to and including the first acceptable entry: `get_int_input` returns iff a
line parses to an integer within the bounds, `get_validated_string_input`
returns iff a line satisfies the validator, and in both cases the remaining
script is exactly what follows the first acceptable line. -/
theorem claim_C9 (parse : String → Option Int) (min_val max_val : Int)
    (entradas : List String) (validator_func : String → Bool)
    (error_message : String) (entradas2 : List String) :
    ((get_int_input parse min_val max_val entradas).isSome = true ↔
        ∃ l ∈ entradas, aceita_int parse min_val max_val l)
      ∧ (∀ v msgs rest,
          get_int_input parse min_val max_val entradas = some (v, msgs, rest) →
            ∃ pre line, entradas = pre ++ line :: rest
              ∧ (∀ l ∈ pre, ¬ aceita_int parse min_val max_val l)
              ∧ parse line = some v ∧ min_val ≤ v ∧ v ≤ max_val)
      ∧ ((get_validated_string_input validator_func error_message entradas2).isSome = true ↔
          ∃ l ∈ entradas2, validator_func l = true)
      ∧ (∀ s msgs rest,
          get_validated_string_input validator_func error_message entradas2 =
              some (s, msgs, rest) →
            ∃ pre, entradas2 = pre ++ s :: rest
              ∧ (∀ l ∈ pre, validator_func l = false)
              ∧ validator_func s = true) := by
  refine ⟨get_int_input_isSome_iff parse min_val max_val entradas, ?_, ?_, ?_⟩
  · intro v msgs rest h
    obtain ⟨pre, line, hsplit, hpre, hline, h1, h2, _⟩ :=
      get_int_input_consome parse min_val max_val entradas v msgs rest h
    exact ⟨pre, line, hsplit, hpre, hline, h1, h2⟩
  · exact get_validated_string_input_isSome_iff validator_func error_message entradas2
  · intro s msgs rest h
    obtain ⟨pre, hsplit, hpre, hacc, _⟩ :=
      get_validated_string_input_consome validator_func error_message entradas2
        s msgs rest h
    exact ⟨pre, hsplit, hpre, hacc⟩

/-- Witness for C9: both readers succeed on a one-line script whose line is
acceptable. -/
theorem claim_C9_witness :
    (get_int_input (fun _ => some 5) 1 10 ["5"]).isSome = true
      ∧ (get_validated_string_input (fun _ => true) "erro" ["ok"]).isSome = true :=
  ⟨(claim_C9 (fun _ => some 5) 1 10 ["5"] (fun _ => true) "erro" ["ok"]).1.mpr
      ⟨"5", by simp, ⟨5, rfl, by norm_num, by norm_num⟩⟩,
    (claim_C9 (fun _ => some 5) 1 10 ["5"] (fun _ => true) "erro" ["ok"]).2.2.1.mpr
      ⟨"ok", by simp, rfl⟩⟩

/-- C10: name validation constrains only length — every string whose length
is between 3 and 20, whatever its characters, is accepted — and
`get_validated_string_input` returns the accepted line verbatim, with no
trimming or normalisation. -/
theorem claim_C10 (s : String) (rest : List String) (err : String)
    (h3 : 3 ≤ s.length) (h20 : s.length ≤ 20) :
    valida_nome_computador s = true
      ∧ get_validated_string_input valida_nome_computador err (s :: rest) =
        some (s, [], rest) := by
  have hv : valida_nome_computador s = true := by
    simp only [valida_nome_computador, Bool.and_eq_true, decide_eq_true_eq]
    exact ⟨h3, h20⟩
  exact ⟨hv, by rw [get_validated_string_input, if_pos hv]⟩

/-- Witness for C10: a name of three spaces is accepted and returned
verbatim. -/
theorem claim_C10_witness :
    valida_nome_computador "   " = true
      ∧ get_validated_string_input valida_nome_computador "erro" ["   "] =
        some ("   ", [], []) :=
  claim_C10 "   " [] "erro" (by decide) (by decide)

lemma min_por_primeiro {α : Type} (key : α → ℚ) :
    ∀ (xs : List α) (x : α),
      ∃ l₁ l₂, x :: xs = l₁ ++ min_por key x xs :: l₂
        ∧ (∀ y ∈ x :: xs, key (min_por key x xs) ≤ key y)
        ∧ ∀ y ∈ l₁, key (min_por key x xs) < key y := by
  intro xs
  induction xs with
  | nil =>
    intro x
    refine ⟨[], [], rfl, ?_, by simp⟩
    intro y hy
    rw [List.mem_singleton] at hy
    subst hy
    exact le_refl _
  | cons y ys ih =>
    intro x
    by_cases hyx : key y < key x
    · have hmp : min_por key x (y :: ys) = min_por key y ys := by
        simp [min_por, hyx]
      obtain ⟨l₁, l₂, hsplit, hub, hstrict⟩ := ih y
      refine ⟨x :: l₁, l₂, ?_, ?_, ?_⟩
      · rw [hmp, List.cons_append, ← hsplit]
      · intro z hz
        rw [hmp]
        rcases List.mem_cons.mp hz with hzx | hzt
        · subst hzx
          exact le_trans (hub y (List.mem_cons_self y ys)) (le_of_lt hyx)
        · exact hub z hzt
      · intro z hz
        rw [hmp]
        rcases List.mem_cons.mp hz with hzx | hzl
        · subst hzx
          exact lt_of_le_of_lt (hub y (List.mem_cons_self y ys)) hyx
        · exact hstrict z hzl
    · have hxy : key x ≤ key y := le_of_not_lt hyx
      have hmp : min_por key x (y :: ys) = min_por key x ys := by
        simp [min_por, hyx]
      obtain ⟨l₁, l₂, hsplit, hub, hstrict⟩ := ih x
      cases l₁ with
      | nil =>
        simp only [List.nil_append] at hsplit
        have hminx : min_por key x ys = x := (List.cons.inj hsplit.symm).1
        have hl₂ : l₂ = ys := (List.cons.inj hsplit.symm).2
        refine ⟨[], y :: l₂, ?_, ?_, by simp⟩
        · rw [hmp, hminx, List.nil_append, hl₂]
        · intro z hz
          rw [hmp, hminx]
          rcases List.mem_cons.mp hz with hzx | hzt
          · subst hzx; exact le_refl _
          · rcases List.mem_cons.mp hzt with hzy | hzys
            · subst hzy; exact hxy
            · have := hub z (List.mem_cons_of_mem x hzys)
              rwa [hminx] at this
      | cons a t =>
        injection hsplit with hax hys
        rw [List.append_eq] at hys
        rw [← hax] at hstrict
        refine ⟨x :: y :: t, l₂, ?_, ?_, ?_⟩
        · rw [hmp]
          simp only [List.cons_append]
          rw [← hys]
        · intro z hz
          rw [hmp]
          rcases List.mem_cons.mp hz with hzx | hzt
          · rw [hzx]
            exact hub x (List.mem_cons_self x ys)
          · rcases List.mem_cons.mp hzt with hzy | hzys
            · subst hzy
              exact le_trans (hub x (List.mem_cons_self x ys)) hxy
            · exact hub z (List.mem_cons_of_mem x hzys)
        · intro z hz
          rw [hmp]
          rcases List.mem_cons.mp hz with hzx | hzt
          · rw [hzx]
            exact hstrict x (List.mem_cons_self x t)
          · rcases List.mem_cons.mp hzt with hzy | hzt2
            · subst hzy
              exact lt_of_lt_of_le (hstrict x (List.mem_cons_self x t)) hxy
            · exact hstrict z (List.mem_cons_of_mem x hzt2)

lemma max_por_primeiro {α : Type} (key : α → ℚ) (xs : List α) (x : α) :
    ∃ l₁ l₂, x :: xs = l₁ ++ max_por key x xs :: l₂
      ∧ (∀ y ∈ x :: xs, key y ≤ key (max_por key x xs))
      ∧ ∀ y ∈ l₁, key y < key (max_por key x xs) := by
  obtain ⟨l₁, l₂, hsplit, hub, hstrict⟩ :=
    min_por_primeiro (fun a => -(key a)) xs x
  refine ⟨l₁, l₂, hsplit, ?_, ?_⟩
  · intro y hy
    have h := hub y hy
    simp only [neg_le_neg_iff] at h
    exact h
  · intro y hy
    have h := hstrict y hy
    simp only [neg_lt_neg_iff] at h
    exact h

/-- C5: with more than one record, the table reports as mais econômico the
first record in insertion order whose `custo` is minimal and as menos
econômico the first whose `custo` is maximal (ties keep the first found);
with zero or one record no min/max comparison is reported. -/
theorem claim_C5 (computadores : List Computador) :
    (computadores.length ≤ 1 →
        (exibir_comparacao_tabela computadores).comparacao = none)
      ∧ (1 < computadores.length →
        ∃ m M, (exibir_comparacao_tabela computadores).comparacao = some (m, M)
          ∧ primeiro_minimo computadores m ∧ primeiro_maximo computadores M) := by
  cases computadores with
  | nil =>
    exact ⟨fun _ => rfl, fun h => absurd h (by simp)⟩
  | cons x xs =>
    cases xs with
    | nil =>
      refine ⟨fun _ => ?_, fun h => absurd h (by simp)⟩
      simp [exibir_comparacao_tabela]
    | cons y ys =>
      refine ⟨fun h => absurd h (by simp), fun _ => ?_⟩
      refine ⟨min_por (fun c => c.custo) x (y :: ys),
        max_por (fun c => c.custo) x (y :: ys), ?_, ?_, ?_⟩
      · simp [exibir_comparacao_tabela]
      · obtain ⟨l₁, l₂, hs, hub, hstrict⟩ :=
          min_por_primeiro (fun c => c.custo) (y :: ys) x
        exact ⟨l₁, l₂, hs, hub, hstrict⟩
      · obtain ⟨l₁, l₂, hs, hub, hstrict⟩ :=
          max_por_primeiro (fun c => c.custo) (y :: ys) x
        exact ⟨l₁, l₂, hs, hub, hstrict⟩

/-- Concrete record used by witnesses: the end-to-end example device. -/
def comp_teste_a : Computador :=
  { nome := "PC A", potencia := 300, horas_por_dia := 8, dias_por_mes := 30,
    consumo_kwh := 72, custo := 288 / 5 }

/-- Concrete record used by witnesses: a cheaper device. -/
def comp_teste_b : Computador :=
  { nome := "PC B", potencia := 100, horas_por_dia := 8, dias_por_mes := 30,
    consumo_kwh := 24, custo := 96 / 5 }

/-- Witness for C5: one record gives no comparison; two records give a
comparison whose members are the first minimal and first maximal records. -/
theorem claim_C5_witness :
    ((exibir_comparacao_tabela [comp_teste_a]).comparacao = none)
      ∧ ∃ m M,
        (exibir_comparacao_tabela [comp_teste_a, comp_teste_b]).comparacao =
            some (m, M)
          ∧ primeiro_minimo [comp_teste_a, comp_teste_b] m
          ∧ primeiro_maximo [comp_teste_a, comp_teste_b] M :=
  ⟨(claim_C5 [comp_teste_a]).1 (by decide),
    (claim_C5 [comp_teste_a, comp_teste_b]).2 (by decide)⟩

/-- The record one successful iteration appends: `info_computador` with its
derived fields taken from `calcular_consumo_mensal` at `PRECO_KWH`. -/
def registro_de (inp : IterInput) : Computador :=
  { nome := inp.nome, potencia := inp.potencia,
    horas_por_dia := inp.horas_por_dia, dias_por_mes := inp.dias_por_mes,
    consumo_kwh := (calcular_consumo_mensal (inp.potencia : ℚ)
      (inp.horas_por_dia : ℚ) (inp.dias_por_mes : ℚ) PRECO_KWH).1,
    custo := (calcular_consumo_mensal (inp.potencia : ℚ)
      (inp.horas_por_dia : ℚ) (inp.dias_por_mes : ℚ) PRECO_KWH).2 }

lemma session_loop_cons_ok (inp : IterInput) (rest : List IterInput)
    (acc : List Computador) :
    session_loop calcular_ok (inp :: rest) acc =
      if inp.continuar then
        session_loop calcular_ok rest (acc ++ [registro_de inp])
      else acc ++ [registro_de inp] := rfl

lemma registro_de_valido (inp : IterInput) : registro_valido (registro_de inp) := by
  constructor <;> simp [registro_de, calcular_consumo_mensal]

/-- C3: at every point of the session every stored record has its derived
fields consistent with its inputs and `PRECO_KWH`, and the loop only
appends: whatever else the remaining script does, the registry contents at
any earlier point are a prefix, in insertion order, of the final contents. -/
theorem claim_C3 (inputs : List IterInput) (acc : List Computador)
    (hacc : ∀ c ∈ acc, registro_valido c) :
    (∀ c ∈ session_loop calcular_ok inputs acc, registro_valido c)
      ∧ ∃ t, acc ++ t = session_loop calcular_ok inputs acc := by
  induction inputs generalizing acc hacc with
  | nil => exact ⟨hacc, [], by simp [session_loop]⟩
  | cons inp rest ih =>
    have hacc2 : ∀ c ∈ acc ++ [registro_de inp], registro_valido c := by
      intro c hc
      rcases List.mem_append.mp hc with h | h
      · exact hacc c h
      · rw [List.mem_singleton] at h
        rw [h]
        exact registro_de_valido inp
    by_cases hcont : inp.continuar
    · obtain ⟨hinv, t, ht⟩ := ih (acc ++ [registro_de inp]) hacc2
      rw [session_loop_cons_ok, if_pos hcont]
      refine ⟨hinv, [registro_de inp] ++ t, ?_⟩
      rw [← List.append_assoc]
      exact ht
    · rw [session_loop_cons_ok, if_neg hcont]
      exact ⟨hacc2, [registro_de inp], rfl⟩

/-- Concrete iteration input used by witnesses: the end-to-end example
device, answering "n" to the continue question. -/
def entrada_teste : IterInput :=
  { nome := "PC A", potencia := 300, horas_por_dia := 8, dias_por_mes := 30,
    continuar := false }

/-- Witness for C3: starting from the empty registry and adding one device,
every final record is consistent and the empty registry is a prefix. -/
theorem claim_C3_witness :
    (∀ c ∈ session_loop calcular_ok [entrada_teste] [], registro_valido c)
      ∧ ∃ t, ([] : List Computador) ++ t =
        session_loop calcular_ok [entrada_teste] [] :=
  claim_C3 [entrada_teste] [] (by simp)

/-- C4: if the computation raises during an iteration, the session loop
terminates at once — the failing iteration is not retried and no further
device of the remaining script is collected — and the records accumulated
before that iteration are passed unchanged to the three reporters. -/
theorem claim_C4 (compute : Int → Int → Int → ℚ → Except String (ℚ × ℚ))
    (inp : IterInput) (rest : List IterInput) (acc : List Computador)
    (e : String)
    (herr : compute inp.potencia inp.horas_por_dia inp.dias_por_mes PRECO_KWH =
      Except.error e) :
    session_loop compute (inp :: rest) acc = acc
      ∧ (acc ≠ [] →
        etapa_relatorios (session_loop compute (inp :: rest) acc) =
          some (exibir_resultados_individuais acc, exibir_comparacao_tabela acc,
            gerar_grafico_comparacao acc)) := by
  have hstop : session_loop compute (inp :: rest) acc = acc := by
    simp [session_loop, herr]
  refine ⟨hstop, fun hne => ?_⟩
  rw [hstop]
  cases acc with
  | nil => exact absurd rfl hne
  | cons c cs => rfl

/-- A computation that models an exception inside the `try` block. -/
def calculo_falho : Int → Int → Int → ℚ → Except String (ℚ × ℚ) :=
  fun _ _ _ _ => Except.error "erro inesperado"

/-- Concrete iteration input used by witnesses: a second device, answering
"s" to the continue question. -/
def entrada_teste_b : IterInput :=
  { nome := "PC B", potencia := 100, horas_por_dia := 8, dias_por_mes := 30,
    continuar := true }

/-- Witness for C4: a failing computation with one record already collected
stops the loop and reports exactly that record. -/
theorem claim_C4_witness :
    session_loop calculo_falho [entrada_teste_b] [comp_teste_a] = [comp_teste_a]
      ∧ ([comp_teste_a] ≠ ([] : List Computador) →
        etapa_relatorios (session_loop calculo_falho [entrada_teste_b] [comp_teste_a]) =
          some (exibir_resultados_individuais [comp_teste_a],
            exibir_comparacao_tabela [comp_teste_a],
            gerar_grafico_comparacao [comp_teste_a])) :=
  claim_C4 calculo_falho entrada_teste_b [] [comp_teste_a] "erro inesperado" rfl

/-- C8: if the computation raises, the registry is left exactly as it was
before that iteration — the in-flight device's collected inputs are
discarded and no record carrying its name is ever appended, because the
append sits after the computation inside the same `try` block. -/
theorem claim_C8 (compute : Int → Int → Int → ℚ → Except String (ℚ × ℚ))
    (inp : IterInput) (rest : List IterInput) (acc : List Computador)
    (e : String)
    (herr : compute inp.potencia inp.horas_por_dia inp.dias_por_mes PRECO_KWH =
      Except.error e)
    (hnovo : ∀ c ∈ acc, c.nome ≠ inp.nome) :
    session_loop compute (inp :: rest) acc = acc
      ∧ ∀ c ∈ session_loop compute (inp :: rest) acc, c.nome ≠ inp.nome := by
  have hstop : session_loop compute (inp :: rest) acc = acc := by
    simp [session_loop, herr]
  refine ⟨hstop, ?_⟩
  rw [hstop]
  exact hnovo

/-- Witness for C8: a failing computation leaves the one-record registry
untouched and no record of the in-flight device's name appears. -/
theorem claim_C8_witness :
    session_loop calculo_falho [entrada_teste_b] [comp_teste_a] = [comp_teste_a]
      ∧ ∀ c ∈ session_loop calculo_falho [entrada_teste_b] [comp_teste_a],
        c.nome ≠ entrada_teste_b.nome :=
  claim_C8 calculo_falho entrada_teste_b [] [comp_teste_a] "erro inesperado" rfl
    (by decide)
